import Mathlib

/-!
# Hook registry and dispatch macros of `include/uc_priv.h`

A shallow embedding of the hook record, the hook-list index enumeration, the
iteration macro `HOOK_FOREACH`, the range test `HOOK_BOUND_CHECK`, the
existence tests `HOOK_EXISTS` / `_hook_exists_bounded`, and the per-architecture
mode masks, followed by theorems about them.

Conventions.
* `uint64_t` values are natural numbers; the header only compares them, so no
  wrap-around occurs and unsigned comparison is comparison on `Nat`.
* A pointer to a `struct list_item` is the chain of items reachable from it:
  `NULL` is `[]`, and `cur->next` is the tail.  Only finite, NULL-terminated
  chains are represented.
* The lists are mutable: a loop body runs a callback, which may register or
  unregister hooks.  The loop of `HOOK_FOREACH` therefore continues with the
  chain that is reachable from `cur->next` once the body has run, which the
  body determines, and the number of iterations is bounded by a fuel argument.
* A `void *data` pointer is `Option hook`; `none` is `NULL`.
* Dereferencing a NULL `data` pointer is a fault, rendered as `none` in the
  result of the function that does it.
-/

namespace Unicorn

/-! ## Data model -/

/-- The record `struct hook`.  The fields `begin` and `end` are spelt
`hbegin` and `hend`; pointers are kept as opaque numbers. -/
structure hook where
  type : Int
  insn : Int
  refs : Int
  hbegin : Nat
  hend : Nat
  callback : Nat
  user_data : Nat
deriving DecidableEq, Repr

/-- Modelled from the spec: `struct list_item` of `list.h`, which is not among
the sources.  The header reads `cur->data` and `cur->next`; `next` is the tail
of the chain, so an item carries only its `data` pointer. -/
structure list_item where
  data : Option hook
deriving DecidableEq, Repr

/-- Modelled from the spec: `struct list` of `list.h`, which is not among the
sources.  The header reads only its `head` pointer. -/
structure list where
  head : List list_item
deriving DecidableEq, Repr

/-! ### `enum uc_hook_idx` -/

def UC_HOOK_INTR_IDX : Nat := 0
def UC_HOOK_INSN_IDX : Nat := UC_HOOK_INTR_IDX + 1
def UC_HOOK_CODE_IDX : Nat := UC_HOOK_INSN_IDX + 1
def UC_HOOK_BLOCK_IDX : Nat := UC_HOOK_CODE_IDX + 1
def UC_HOOK_MEM_READ_UNMAPPED_IDX : Nat := UC_HOOK_BLOCK_IDX + 1
def UC_HOOK_MEM_WRITE_UNMAPPED_IDX : Nat := UC_HOOK_MEM_READ_UNMAPPED_IDX + 1
def UC_HOOK_MEM_FETCH_UNMAPPED_IDX : Nat := UC_HOOK_MEM_WRITE_UNMAPPED_IDX + 1
def UC_HOOK_MEM_READ_PROT_IDX : Nat := UC_HOOK_MEM_FETCH_UNMAPPED_IDX + 1
def UC_HOOK_MEM_WRITE_PROT_IDX : Nat := UC_HOOK_MEM_READ_PROT_IDX + 1
def UC_HOOK_MEM_FETCH_PROT_IDX : Nat := UC_HOOK_MEM_WRITE_PROT_IDX + 1
def UC_HOOK_MEM_READ_IDX : Nat := UC_HOOK_MEM_FETCH_PROT_IDX + 1
def UC_HOOK_MEM_WRITE_IDX : Nat := UC_HOOK_MEM_READ_IDX + 1
def UC_HOOK_MEM_FETCH_IDX : Nat := UC_HOOK_MEM_WRITE_IDX + 1
def UC_HOOK_MAX : Nat := UC_HOOK_MEM_FETCH_IDX + 1

/-- The hook-list offsets of `enum uc_hook_idx`, in declaration order
(`UC_HOOK_MAX`, the array size, is not a list offset). -/
def uc_hook_idx : List Nat :=
  [UC_HOOK_INTR_IDX, UC_HOOK_INSN_IDX, UC_HOOK_CODE_IDX, UC_HOOK_BLOCK_IDX,
   UC_HOOK_MEM_READ_UNMAPPED_IDX, UC_HOOK_MEM_WRITE_UNMAPPED_IDX,
   UC_HOOK_MEM_FETCH_UNMAPPED_IDX,
   UC_HOOK_MEM_READ_PROT_IDX, UC_HOOK_MEM_WRITE_PROT_IDX,
   UC_HOOK_MEM_FETCH_PROT_IDX,
   UC_HOOK_MEM_READ_IDX, UC_HOOK_MEM_WRITE_IDX, UC_HOOK_MEM_FETCH_IDX]

/-! ### `struct uc_struct` -/

/-- Modelled from the spec: the enumeration `uc_arch` of `unicorn/unicorn.h`,
which is not among the sources; one member for each architecture that has a
mode mask in `uc_priv.h`. -/
inductive uc_arch where
  | UC_ARCH_ARM
  | UC_ARCH_MIPS
  | UC_ARCH_X86
  | UC_ARCH_PPC
  | UC_ARCH_SPARC
  | UC_ARCH_M68K
deriving DecidableEq, Repr

/-- The fields of `struct uc_struct` read or written by the hook macros and by
mode validation: `arch`, `mode`, the array `hook[UC_HOOK_MAX]` and the flag
`stop_request`. -/
structure uc_struct where
  arch : uc_arch
  mode : Nat
  hook : { a : List list // a.length = UC_HOOK_MAX }
  stop_request : Bool
deriving DecidableEq

/-- The array element `(uc)->hook[idx]` for an in-range index. -/
def uc_struct.hook_at (uc : uc_struct) (idx : Fin UC_HOOK_MAX) : list :=
  uc.hook.1.get ⟨idx.1, by rw [uc.hook.2]; exact idx.2⟩

/-- The assignment `(uc)->hook[idx] = l`. -/
def uc_struct.hook_set (uc : uc_struct) (idx : Fin UC_HOOK_MAX) (l : list) : uc_struct :=
  { uc with hook := ⟨uc.hook.1.set idx.1 l, by rw [List.length_set]; exact uc.hook.2⟩ }

/-! ## The hook macros -/

/-- The macro `HOOK_BOUND_CHECK(hh, addr)`:
`((addr >= hh->begin && addr <= hh->end) || hh->begin > hh->end)`. -/
def HOOK_BOUND_CHECK (hh : hook) (addr : Nat) : Bool :=
  (decide (addr ≥ hh.hbegin) && decide (addr ≤ hh.hend)) || decide (hh.hbegin > hh.hend)

/-- The macro `HOOK_EXISTS(uc, idx)`: `(uc)->hook[idx].head != NULL`. -/
def HOOK_EXISTS (uc : uc_struct) (idx : Fin UC_HOOK_MAX) : Bool :=
  !(uc.hook_at idx).head.isEmpty

/-- The function `_hook_exists_bounded(cur, addr)`.  The loop applies
`HOOK_BOUND_CHECK` to `cur->data` without testing it, so an item whose `data`
is NULL is a fault (`none`). -/
def _hook_exists_bounded : List list_item → Nat → Option Bool
  | [], _ => some false
  | cur :: next, addr =>
    match cur.data with
    | none => none
    | some hh =>
      if HOOK_BOUND_CHECK hh addr then some true
      else _hook_exists_bounded next addr

/-- The macro `HOOK_EXISTS_BOUNDED(uc, idx, addr)`. -/
def HOOK_EXISTS_BOUNDED (uc : uc_struct) (idx : Fin UC_HOOK_MAX) (addr : Nat) : Option Bool :=
  _hook_exists_bounded (uc.hook_at idx).head addr

/-- The emulator during a pass over a hook list: the context, and a ghost log
of the callbacks invoked so far, oldest first. -/
structure emu where
  uc : uc_struct
  calls : List hook
deriving DecidableEq

/-- How a pass over a hook list ends: `done` when the loop condition is false;
`fault` when the body has freed the item under the cursor, so that the
increment `cur = cur->next` reads freed memory; `out_of_fuel` when the bound on
the number of iterations that the model imposes is used up. -/
inductive pass_status where
  | done
  | fault
  | out_of_fuel
deriving DecidableEq, Repr

/-- The record of a pass: the body executions, each with the record `hh` and
the state in which the body began; the state when the pass is left; and how it
ended. -/
structure pass where
  entered : List (hook × emu)
  final : emu
  status : pass_status
deriving DecidableEq

/-- The effect of a loop body.  The body runs foreign code (the callback), which
may register or unregister hooks, so besides the state it determines the list
that the increment `cur = cur->next` will read: given the record `hh`, the chain
reachable from `cur->next` when the body begins, and the state, it yields the
new state and the chain reachable from `cur->next` when the body has ended, or
`none` if it has freed the item under the cursor. -/
abbrev loop_body := hook → List list_item → emu → emu × Option (List list_item)

/-- The loop of `HOOK_FOREACH` from the cursor `cur`:
`for (; cur != NULL && (hh = cur->data) && !uc->stop_request; cur = cur->next) body`.
The condition is tested before every body execution; the increment reads
`cur->next` after the body, on the list as the body has left it.  Since a body
can extend the list, the number of iterations is bounded by `fuel` (one unit for
each evaluation of the loop condition). -/
def HOOK_FOREACH_from (body : loop_body) : Nat → List list_item → emu → pass
  | 0, _, e => ⟨[], e, .out_of_fuel⟩
  | _ + 1, [], e => ⟨[], e, .done⟩
  | fuel + 1, cur :: next, e =>
    match cur.data with
    | none => ⟨[], e, .done⟩
    | some hh =>
      if e.uc.stop_request then ⟨[], e, .done⟩
      else
        match (body hh next e).2 with
        | none => ⟨[(hh, e)], (body hh next e).1, .fault⟩
        | some next1 =>
          let r := HOOK_FOREACH_from body fuel next1 (body hh next e).1
          ⟨(hh, e) :: r.entered, r.final, r.status⟩

/-- The macro `HOOK_FOREACH(uc, hh, idx)` followed by its body: the loop starts
at `(uc)->hook[idx].head`. -/
def HOOK_FOREACH (body : loop_body) (fuel : Nat) (idx : Fin UC_HOOK_MAX) (e : emu) : pass :=
  HOOK_FOREACH_from body fuel (e.uc.hook_at idx).head e

/-- The effect of a callback: given the record, the chain reachable from
`cur->next` and the context, the new context and the chain reachable from
`cur->next` afterwards (`none` if the callback has freed the item under the
cursor). -/
abbrev callback := hook → List list_item → uc_struct → uc_struct × Option (List list_item)

/-- Modelled from the spec: invocation of the callback of `hh` (the call sites
are not among the sources).  The callback is foreign code: `cb` is its effect,
and the invocation is appended to the log. -/
def invoke (cb : callback) (hh : hook) (next : List list_item) (e : emu) :
    emu × Option (List list_item) :=
  ({ uc := (cb hh next e.uc).1, calls := e.calls ++ [hh] }, (cb hh next e.uc).2)

/-- Modelled from the spec: the loop body of a dispatch pass at `addr` (the
call sites are not among the sources).  Section 4.3, step 2: the callback is
invoked if `HOOK_BOUND_CHECK(hh, addr)` holds, otherwise the record is skipped
and nothing changes. -/
def dispatch_body (cb : callback) (addr : Nat) : loop_body :=
  fun hh next e => if HOOK_BOUND_CHECK hh addr then invoke cb hh next e else (e, some next)

/-- A dispatch pass at `addr` from the cursor `cur`: `HOOK_FOREACH` with the
body guarded by `HOOK_BOUND_CHECK`. -/
def dispatch_from (cb : callback) (addr : Nat) (fuel : Nat)
    (cur : List list_item) (e : emu) : pass :=
  HOOK_FOREACH_from (dispatch_body cb addr) fuel cur e

/-! ## Supported-mode masks and context construction -/

/-- Modelled from the spec: the members of the enumeration `uc_mode` of
`unicorn/unicorn.h` that the masks name.  That header is not among the
sources, so the values of the members are parameters. -/
structure uc_mode where
  UC_MODE_ARM : Nat
  UC_MODE_THUMB : Nat
  UC_MODE_LITTLE_ENDIAN : Nat
  UC_MODE_BIG_ENDIAN : Nat
  UC_MODE_MIPS32 : Nat
  UC_MODE_MIPS64 : Nat
  UC_MODE_16 : Nat
  UC_MODE_32 : Nat
  UC_MODE_64 : Nat
  UC_MODE_PPC64 : Nat
  UC_MODE_SPARC32 : Nat
  UC_MODE_SPARC64 : Nat
deriving DecidableEq

def UC_MODE_ARM_MASK (m : uc_mode) : Nat :=
  m.UC_MODE_ARM ||| m.UC_MODE_THUMB ||| m.UC_MODE_LITTLE_ENDIAN

def UC_MODE_MIPS_MASK (m : uc_mode) : Nat :=
  m.UC_MODE_MIPS32 ||| m.UC_MODE_MIPS64 ||| m.UC_MODE_LITTLE_ENDIAN ||| m.UC_MODE_BIG_ENDIAN

def UC_MODE_X86_MASK (m : uc_mode) : Nat :=
  m.UC_MODE_16 ||| m.UC_MODE_32 ||| m.UC_MODE_64 ||| m.UC_MODE_LITTLE_ENDIAN

def UC_MODE_PPC_MASK (m : uc_mode) : Nat :=
  m.UC_MODE_PPC64 ||| m.UC_MODE_BIG_ENDIAN

def UC_MODE_SPARC_MASK (m : uc_mode) : Nat :=
  m.UC_MODE_SPARC32 ||| m.UC_MODE_SPARC64 ||| m.UC_MODE_BIG_ENDIAN

def UC_MODE_M68K_MASK (m : uc_mode) : Nat :=
  m.UC_MODE_BIG_ENDIAN

/-- The mask of supported modes of an architecture. -/
def mode_mask (m : uc_mode) : uc_arch → Nat
  | .UC_ARCH_ARM => UC_MODE_ARM_MASK m
  | .UC_ARCH_MIPS => UC_MODE_MIPS_MASK m
  | .UC_ARCH_X86 => UC_MODE_X86_MASK m
  | .UC_ARCH_PPC => UC_MODE_PPC_MASK m
  | .UC_ARCH_SPARC => UC_MODE_SPARC_MASK m
  | .UC_ARCH_M68K => UC_MODE_M68K_MASK m

/-- Modelled from the spec: the error kinds of section 7; the type `uc_err` is
declared in `unicorn/unicorn.h`, which is not among the sources. -/
inductive uc_err where
  | invalid_mode
  | unmapped_access
  | protection_violation
  | unknown_register
  | unsupported_hook
  | out_of_memory
deriving DecidableEq, Repr

/-- The hook array of a fresh context: `UC_HOOK_MAX` empty lists. -/
def no_hooks : { a : List list // a.length = UC_HOOK_MAX } :=
  ⟨List.replicate UC_HOOK_MAX ⟨[]⟩, List.length_replicate _ _⟩

/-- The mode bits are a subset of the mask: no bit of `mode` lies outside
`mask`. -/
def mode_subset (mode mask : Nat) : Bool :=
  (mode &&& mask) == mode

/-- Modelled from the spec: context construction (the open operation), whose
code is not among the sources.  Section 4.2: construction rejects an
(architecture, mode) pair whose mode bits are not a subset of the
architecture's mask, with the dedicated error, before anything is populated;
otherwise it yields a context holding the architecture and the mode as
given. -/
def uc_open (m : uc_mode) (arch : uc_arch) (mode : Nat) : Except uc_err uc_struct :=
  if mode_subset mode (mode_mask m arch) then
    .ok { arch := arch, mode := mode, hook := no_hooks, stop_request := false }
  else .error .invalid_mode

/-- An assignment of the mode members with little-endian and ARM as 0, the
16/32/64-bit members as bits 1, 2, 3, Thumb as bit 4 and big-endian as bit 30. -/
def sample_modes : uc_mode where
  UC_MODE_ARM := 0
  UC_MODE_THUMB := 16
  UC_MODE_LITTLE_ENDIAN := 0
  UC_MODE_BIG_ENDIAN := 1073741824
  UC_MODE_MIPS32 := 4
  UC_MODE_MIPS64 := 8
  UC_MODE_16 := 2
  UC_MODE_32 := 4
  UC_MODE_64 := 8
  UC_MODE_PPC64 := 8
  UC_MODE_SPARC32 := 4
  UC_MODE_SPARC64 := 8

/-! ## Sample data -/

/-- A hook with the range `[0x1000, 0x2000]`. -/
def hook_1000_2000 : hook :=
  { type := 4, insn := 0, refs := 1, hbegin := 0x1000, hend := 0x2000, callback := 1, user_data := 0 }

/-- A hook with `begin > end`. -/
def hook_unbounded : hook :=
  { type := 4, insn := 0, refs := 1, hbegin := 1, hend := 0, callback := 2, user_data := 0 }

/-- A hook with the range `[0x3000, 0x3fff]`. -/
def hook_3000 : hook :=
  { type := 4, insn := 0, refs := 1, hbegin := 0x3000, hend := 0x3fff, callback := 3, user_data := 0 }

/-- A context without hooks, not stopped. -/
def uc0 : uc_struct :=
  { arch := .UC_ARCH_X86, mode := 4, hook := no_hooks, stop_request := false }

/-- The state of a pass that starts from `uc0` with an empty log. -/
def emu0 : emu := { uc := uc0, calls := [] }

/-- A callback that requests a stop and leaves the hook lists alone. -/
def cb_stop : callback :=
  fun _ next uc => ({ uc with stop_request := true }, some next)

/-- A callback that changes nothing. -/
def cb_nop : callback :=
  fun _ next uc => (uc, some next)

/-- The records held by a chain, in head-to-tail order. -/
def records (cur : List list_item) : List hook :=
  cur.filterMap (fun it => it.data)

/-- The range of `hh` matches `addr`, in the words of the specification:
`begin > end`, or `begin <= addr <= end`. -/
def range_matches (hh : hook) (addr : Nat) : Prop :=
  hh.hbegin > hh.hend ∨ (hh.hbegin ≤ addr ∧ addr ≤ hh.hend)

instance (hh : hook) (addr : Nat) : Decidable (range_matches hh addr) := by
  unfold range_matches; infer_instance

/-- A chain whose first item has NULL data, followed by an unbounded hook. -/
def chain_null_first : List list_item :=
  [⟨none⟩, ⟨some hook_unbounded⟩]

/-- A chain of three records with non-NULL data. -/
def chain3 : List list_item :=
  [⟨some hook_3000⟩, ⟨some hook_1000_2000⟩, ⟨some hook_unbounded⟩]

/-- The index `UC_HOOK_CODE_IDX` as an index into `hook[UC_HOOK_MAX]`. -/
def code_idx : Fin UC_HOOK_MAX := ⟨UC_HOOK_CODE_IDX, by decide⟩

/-- The index `UC_HOOK_MEM_READ_IDX` as an index into `hook[UC_HOOK_MAX]`. -/
def mem_read_idx : Fin UC_HOOK_MAX := ⟨UC_HOOK_MEM_READ_IDX, by decide⟩

/-- The context `uc0` with `chain3` as its list of code hooks. -/
def uc_code : uc_struct := uc0.hook_set code_idx ⟨chain3⟩

/-- The chain that holds the records `l`: one item for each record, its
`data` pointing to the record. -/
def chain_of (l : List hook) : List list_item :=
  l.map (fun hh => ⟨some hh⟩)

/-- A callback that unregisters the code hook at the tail of the list: the last
item is unlinked from `hook[UC_HOOK_CODE_IDX]`, hence from the chain after the
cursor; if nothing follows the cursor, the item freed is the one under it. -/
def cb_unlink_last : callback :=
  fun _ next uc =>
    (uc.hook_set code_idx ⟨(uc.hook_at code_idx).head.dropLast⟩,
      if next.isEmpty then none else some next.dropLast)

/-- The state of a pass that starts from `uc_code` with an empty log. -/
def emu_code : emu := { uc := uc_code, calls := [] }

/-! ## Theorems -/

theorem HOOK_BOUND_CHECK_iff (hh : hook) (addr : Nat) :
    HOOK_BOUND_CHECK hh addr = true ↔ range_matches hh addr := by
  simp only [HOOK_BOUND_CHECK, range_matches, Bool.or_eq_true, Bool.and_eq_true,
    decide_eq_true_eq, ge_iff_le, gt_iff_lt]
  tauto

/-- C1: for a hook with `begin <= end`, `HOOK_BOUND_CHECK(hook, addr)` holds
exactly when `begin <= addr` and `addr <= end`; a hook with the range
`[0x1000, 0x2000]` matches 0x1500, 0x1000 and 0x2000 and matches neither 0x500
nor 0x2001. -/
theorem C1_bound_check_inclusive (hh : hook) (addr : Nat) (h : hh.hbegin ≤ hh.hend) :
    (HOOK_BOUND_CHECK hh addr = true ↔ hh.hbegin ≤ addr ∧ addr ≤ hh.hend) ∧
    (hh.hbegin = 0x1000 → hh.hend = 0x2000 →
      HOOK_BOUND_CHECK hh 0x1500 = true ∧ HOOK_BOUND_CHECK hh 0x1000 = true ∧
      HOOK_BOUND_CHECK hh 0x2000 = true ∧ HOOK_BOUND_CHECK hh 0x500 = false ∧
      HOOK_BOUND_CHECK hh 0x2001 = false) := by
  refine ⟨?_, ?_⟩
  · rw [HOOK_BOUND_CHECK_iff]
    unfold range_matches
    constructor
    · rintro (h1 | h1)
      · omega
      · exact h1
    · exact fun h1 => Or.inr h1
  · intro hb he
    simp [HOOK_BOUND_CHECK, hb, he]

theorem C1_bound_check_inclusive_witness :
    hook_1000_2000.hbegin ≤ hook_1000_2000.hend ∧
    (HOOK_BOUND_CHECK hook_1000_2000 0x1500 = true ↔
      hook_1000_2000.hbegin ≤ 0x1500 ∧ 0x1500 ≤ hook_1000_2000.hend) ∧
    HOOK_BOUND_CHECK hook_1000_2000 0x2001 = false :=
  ⟨by decide, (C1_bound_check_inclusive hook_1000_2000 0x1500 (by decide)).1,
    ((C1_bound_check_inclusive hook_1000_2000 0x1500 (by decide)).2 rfl rfl).2.2.2.2⟩

/-- C2: for a hook with `begin > end`, `HOOK_BOUND_CHECK(hook, addr)` holds for
every address. -/
theorem C2_bound_check_unbounded (hh : hook) (addr : Nat) (h : hh.hbegin > hh.hend) :
    HOOK_BOUND_CHECK hh addr = true :=
  (HOOK_BOUND_CHECK_iff hh addr).2 (Or.inl h)

theorem C2_bound_check_unbounded_witness :
    hook_unbounded.hbegin > hook_unbounded.hend ∧
    HOOK_BOUND_CHECK hook_unbounded 0xffffffffffffffff = true :=
  ⟨by decide, C2_bound_check_unbounded hook_unbounded 0xffffffffffffffff (by decide)⟩

/-! ### Existence tests -/

theorem records_cons_some (hh : hook) (next : List list_item) :
    records (⟨some hh⟩ :: next) = hh :: records next := by
  simp [records]

theorem hook_exists_bounded_any (cur : List list_item) (addr : Nat)
    (h : ∀ it ∈ cur, it.data ≠ none) :
    _hook_exists_bounded cur addr
      = some ((records cur).any (fun hh => HOOK_BOUND_CHECK hh addr)) := by
  induction cur with
  | nil => simp [_hook_exists_bounded, records]
  | cons it next ih =>
    obtain ⟨d⟩ := it
    cases d with
    | none => exact absurd rfl (h ⟨none⟩ (List.mem_cons_self _ _))
    | some hh =>
      have ih1 := ih (fun x hx => h x (List.mem_cons_of_mem _ hx))
      rw [records_cons_some]
      by_cases hc : HOOK_BOUND_CHECK hh addr = true
      · simp [_hook_exists_bounded, hc]
      · simp [_hook_exists_bounded, hc, ih1]

theorem any_bound_check_iff (l : List hook) (addr : Nat) :
    l.any (fun hh => HOOK_BOUND_CHECK hh addr) = true ↔ ∃ hh ∈ l, range_matches hh addr := by
  simp only [List.any_eq_true, HOOK_BOUND_CHECK_iff]

theorem records_chain_of (l : List hook) : records (chain_of l) = l := by
  induction l with
  | nil => rfl
  | cons hh t ih =>
    have h : chain_of (hh :: t) = ⟨some hh⟩ :: chain_of t := rfl
    rw [h, records_cons_some, ih]

theorem chain_of_data (l : List hook) : ∀ it ∈ chain_of l, it.data ≠ none := by
  intro it hit
  simp only [chain_of, List.mem_map] at hit
  obtain ⟨hh, _, rfl⟩ := hit
  simp

/-- C5: for every hook collection (the chain whose items point to the records
`l`) and every address, `_hook_exists_bounded(head, addr)` returns true if and
only if some record has `begin <= addr <= end` or `begin > end`, and returns
false otherwise; it returns false for the empty collection; and
`HOOK_EXISTS_BOUNDED(uc, idx, addr)` is this function at `hook[idx].head`. -/
theorem C5_exists_bounded (l : List hook) (addr : Nat) :
    (_hook_exists_bounded (chain_of l) addr = some true ↔
      ∃ hh ∈ l, (hh.hbegin ≤ addr ∧ addr ≤ hh.hend) ∨ hh.hbegin > hh.hend) ∧
    (_hook_exists_bounded (chain_of l) addr = some false ↔
      ¬ ∃ hh ∈ l, (hh.hbegin ≤ addr ∧ addr ≤ hh.hend) ∨ hh.hbegin > hh.hend) ∧
    _hook_exists_bounded [] addr = some false ∧
    (∀ (uc : uc_struct) (idx : Fin UC_HOOK_MAX), (uc.hook_at idx).head = chain_of l →
      HOOK_EXISTS_BOUNDED uc idx addr = _hook_exists_bounded (chain_of l) addr) := by
  have hm : (∃ hh ∈ l, (hh.hbegin ≤ addr ∧ addr ≤ hh.hend) ∨ hh.hbegin > hh.hend) ↔
      ∃ hh ∈ l, range_matches hh addr := by
    constructor
    · rintro ⟨hh, h1, h2⟩; exact ⟨hh, h1, Or.symm h2⟩
    · rintro ⟨hh, h1, h2⟩; exact ⟨hh, h1, Or.symm h2⟩
  rw [hook_exists_bounded_any (chain_of l) addr (chain_of_data l), records_chain_of, hm,
    ← any_bound_check_iff]
  refine ⟨by simp, by simp, rfl, ?_⟩
  intro uc idx h
  unfold HOOK_EXISTS_BOUNDED
  rw [h, hook_exists_bounded_any (chain_of l) addr (chain_of_data l), records_chain_of]

theorem C5_exists_bounded_witness :
    _hook_exists_bounded chain3 0x500 = some true ∧
    _hook_exists_bounded (chain_of [hook_3000, hook_1000_2000]) 0x500 = some false ∧
    ¬ ∃ hh ∈ [hook_3000, hook_1000_2000],
        (hh.hbegin ≤ 0x500 ∧ 0x500 ≤ hh.hend) ∨ hh.hbegin > hh.hend :=
  ⟨by decide, by decide,
    (C5_exists_bounded [hook_3000, hook_1000_2000] 0x500).2.1.1 (by decide)⟩

theorem hook_at_hook_set_self (uc : uc_struct) (i : Fin UC_HOOK_MAX) (l : list) :
    (uc.hook_set i l).hook_at i = l := by
  simp [uc_struct.hook_at, uc_struct.hook_set]

theorem hook_at_hook_set_ne (uc : uc_struct) (i j : Fin UC_HOOK_MAX) (l : list) (h : i ≠ j) :
    (uc.hook_set i l).hook_at j = uc.hook_at j := by
  have h1 : i.1 ≠ j.1 := fun e => h (Fin.ext e)
  simp [uc_struct.hook_at, uc_struct.hook_set, List.getElem_set_ne h1]

/-- C6: `HOOK_EXISTS(uc, idx)` holds if and only if the head of the list
`hook[idx]` is not NULL; two contexts whose lists at `idx` are both empty or
both non-empty give the same answer, so the answer depends neither on the
lists of other hook types nor on the records and their ranges. -/
theorem C6_hook_exists (uc : uc_struct) (idx : Fin UC_HOOK_MAX) :
    (HOOK_EXISTS uc idx = true ↔ (uc.hook_at idx).head ≠ []) ∧
    (∀ uc2 : uc_struct, ((uc2.hook_at idx).head = [] ↔ (uc.hook_at idx).head = []) →
      HOOK_EXISTS uc2 idx = HOOK_EXISTS uc idx) ∧
    (∀ (j : Fin UC_HOOK_MAX) (l : list), j ≠ idx →
      HOOK_EXISTS (uc.hook_set j l) idx = HOOK_EXISTS uc idx) ∧
    (∀ f : hook → hook,
      HOOK_EXISTS (uc.hook_set idx
        ⟨(uc.hook_at idx).head.map (fun it => ⟨it.data.map f⟩)⟩) idx = HOOK_EXISTS uc idx) := by
  refine ⟨?_, ?_, ?_, ?_⟩
  · simp [HOOK_EXISTS, List.isEmpty_iff]
  · intro uc2 h
    simp only [HOOK_EXISTS]
    cases h1 : (uc.hook_at idx).head with
    | nil => rw [h.2 h1]
    | cons a t =>
      cases h2 : (uc2.hook_at idx).head with
      | nil => rw [h.1 h2] at h1; cases h1
      | cons b u => rfl
  · intro j l hj
    simp only [HOOK_EXISTS, hook_at_hook_set_ne uc j idx l hj]
  · intro f
    simp only [HOOK_EXISTS, hook_at_hook_set_self]
    cases (uc.hook_at idx).head <;> rfl

theorem C6_hook_exists_witness :
    HOOK_EXISTS uc_code code_idx = true ∧ HOOK_EXISTS uc_code mem_read_idx = false ∧
    HOOK_EXISTS (uc_code.hook_set mem_read_idx ⟨chain_null_first⟩) code_idx
      = HOOK_EXISTS uc_code code_idx :=
  ⟨by decide, by decide,
    (C6_hook_exists uc_code code_idx).2.2.1 mem_read_idx ⟨chain_null_first⟩ (by decide)⟩

/-! ### The index enumeration -/

/-- C8: the hook-list offsets are the 13 distinct numbers 0..12 in the order
interrupt, instruction, code, block, read/write/fetch unmapped,
read/write/fetch protection, read/write/fetch access, and `UC_HOOK_MAX` is 13;
every offset is below `UC_HOOK_MAX`, the array `hook` has `UC_HOOK_MAX`
elements, and distinct offsets select distinct elements of it. -/
theorem C8_hook_idx_enumeration :
    uc_hook_idx = [0, 1, 2, 3, 4, 5, 6, 7, 8, 9, 10, 11, 12] ∧
    (UC_HOOK_INTR_IDX = 0 ∧ UC_HOOK_INSN_IDX = 1 ∧ UC_HOOK_CODE_IDX = 2 ∧
      UC_HOOK_BLOCK_IDX = 3 ∧ UC_HOOK_MEM_READ_UNMAPPED_IDX = 4 ∧
      UC_HOOK_MEM_WRITE_UNMAPPED_IDX = 5 ∧ UC_HOOK_MEM_FETCH_UNMAPPED_IDX = 6 ∧
      UC_HOOK_MEM_READ_PROT_IDX = 7 ∧ UC_HOOK_MEM_WRITE_PROT_IDX = 8 ∧
      UC_HOOK_MEM_FETCH_PROT_IDX = 9 ∧ UC_HOOK_MEM_READ_IDX = 10 ∧
      UC_HOOK_MEM_WRITE_IDX = 11 ∧ UC_HOOK_MEM_FETCH_IDX = 12) ∧
    uc_hook_idx.length = 13 ∧ uc_hook_idx.Nodup ∧ UC_HOOK_MAX = 13 ∧
    (∀ i ∈ uc_hook_idx, i < UC_HOOK_MAX) ∧
    (∀ i, i < UC_HOOK_MAX → i ∈ uc_hook_idx) ∧
    (∀ uc : uc_struct, uc.hook.1.length = UC_HOOK_MAX) ∧
    (∀ (uc : uc_struct) (i j : Fin UC_HOOK_MAX) (l : list),
      (uc.hook_set i l).hook_at i = l ∧
      (i ≠ j → (uc.hook_set i l).hook_at j = uc.hook_at j)) := by
  refine ⟨by decide, by decide, by decide, by decide, by decide, by decide, ?_, ?_, ?_⟩
  · intro i hi
    have h13 : UC_HOOK_MAX = 13 := by decide
    rw [h13] at hi
    have h : uc_hook_idx = [0, 1, 2, 3, 4, 5, 6, 7, 8, 9, 10, 11, 12] := by decide
    rw [h]
    interval_cases i <;> decide
  · exact fun uc => uc.hook.2
  · exact fun uc i j l => ⟨hook_at_hook_set_self uc i l, hook_at_hook_set_ne uc i j l⟩

theorem C8_hook_idx_enumeration_witness :
    UC_HOOK_MEM_FETCH_IDX ∈ uc_hook_idx ∧ UC_HOOK_MEM_FETCH_IDX < UC_HOOK_MAX ∧
    (uc_code.hook_set mem_read_idx ⟨chain_null_first⟩).hook_at code_idx = ⟨chain3⟩ :=
  ⟨by decide,
    C8_hook_idx_enumeration.2.2.2.2.2.1 UC_HOOK_MEM_FETCH_IDX (by decide),
    ((C8_hook_idx_enumeration.2.2.2.2.2.2.2.2 uc_code mem_read_idx code_idx
      ⟨chain_null_first⟩).2 (by decide)).trans (by decide)⟩

/-! ### Mode masks -/

theorem mode_subset_iff_testBit (mode mask : Nat) :
    mode_subset mode mask = true ↔
      ∀ i, mode.testBit i = true → mask.testBit i = true := by
  simp only [mode_subset, beq_iff_eq]
  constructor
  · intro h i hi
    have h1 := congrArg (fun x => x.testBit i) h
    simp only [Nat.testBit_land, hi, Bool.true_and] at h1
    exact h1
  · intro h
    apply Nat.eq_of_testBit_eq
    intro i
    rw [Nat.testBit_land]
    cases hm : mode.testBit i with
    | false => rfl
    | true => simp [h i hm]

theorem ldiff_eq_zero_iff_testBit (mode mask : Nat) :
    Nat.ldiff mode mask = 0 ↔ ∀ i, mode.testBit i = true → mask.testBit i = true := by
  constructor
  · intro h i hi
    have h1 := Nat.testBit_ldiff mode mask i
    rw [h, Nat.zero_testBit, hi] at h1
    cases hk : mask.testBit i with
    | true => rfl
    | false => rw [hk] at h1; simp at h1
  · intro h
    apply Nat.eq_of_testBit_eq
    intro i
    rw [Nat.testBit_ldiff, Nat.zero_testBit]
    cases hm : mode.testBit i with
    | false => rfl
    | true => simp [h i hm]

/-- C7: construction of a context for `(arch, mode)` succeeds if and only if
`mode & ~MASK == 0` for the mask of `arch`, that is, if and only if every bit of
`mode` is a bit of the mask; a mode with a bit outside the mask fails with the
invalid-mode error, and a context that is constructed holds `mode` as given; the
masks are `UC_MODE_ARM_MASK`, `UC_MODE_MIPS_MASK`, `UC_MODE_X86_MASK`,
`UC_MODE_PPC_MASK`, `UC_MODE_SPARC_MASK` and `UC_MODE_M68K_MASK`. -/
theorem C7_open_checks_mode_mask (m : uc_mode) (arch : uc_arch) (mode : Nat) :
    ((∃ uc, uc_open m arch mode = .ok uc) ↔ Nat.ldiff mode (mode_mask m arch) = 0) ∧
    ((∃ uc, uc_open m arch mode = .ok uc) ↔
      ∀ i, mode.testBit i = true → (mode_mask m arch).testBit i = true) ∧
    ((∃ i, mode.testBit i = true ∧ (mode_mask m arch).testBit i = false) →
      uc_open m arch mode = .error .invalid_mode) ∧
    (∀ uc, uc_open m arch mode = .ok uc → uc.arch = arch ∧ uc.mode = mode) ∧
    (mode_mask m .UC_ARCH_ARM = UC_MODE_ARM_MASK m ∧
      mode_mask m .UC_ARCH_MIPS = UC_MODE_MIPS_MASK m ∧
      mode_mask m .UC_ARCH_X86 = UC_MODE_X86_MASK m ∧
      mode_mask m .UC_ARCH_PPC = UC_MODE_PPC_MASK m ∧
      mode_mask m .UC_ARCH_SPARC = UC_MODE_SPARC_MASK m ∧
      mode_mask m .UC_ARCH_M68K = UC_MODE_M68K_MASK m) := by
  have key : (∃ uc, uc_open m arch mode = .ok uc) ↔
      ∀ i, mode.testBit i = true → (mode_mask m arch).testBit i = true := by
    rw [← mode_subset_iff_testBit]
    unfold uc_open
    cases hs : mode_subset mode (mode_mask m arch) <;> simp
  refine ⟨?_, key, ?_, ?_, ⟨rfl, rfl, rfl, rfl, rfl, rfl⟩⟩
  · rw [key, ldiff_eq_zero_iff_testBit]
  · rintro ⟨i, hi, hk⟩
    have hs : mode_subset mode (mode_mask m arch) = false := by
      cases hs : mode_subset mode (mode_mask m arch) with
      | false => rfl
      | true =>
        have := (mode_subset_iff_testBit _ _).1 hs i hi
        rw [hk] at this
        cases this
    simp [uc_open, hs]
  · intro uc h
    unfold uc_open at h
    cases hs : mode_subset mode (mode_mask m arch) with
    | false => simp [hs] at h
    | true =>
      simp only [hs, if_true] at h
      cases h
      exact ⟨rfl, rfl⟩

theorem C7_open_checks_mode_mask_witness :
    (Nat.testBit 8 3 = true ∧ (mode_mask sample_modes .UC_ARCH_M68K).testBit 3 = false) ∧
    uc_open sample_modes .UC_ARCH_M68K 8 = .error .invalid_mode ∧
    (∃ uc, uc_open sample_modes .UC_ARCH_X86 8 = .ok uc) :=
  ⟨⟨by decide, by decide⟩,
    (C7_open_checks_mode_mask sample_modes .UC_ARCH_M68K 8).2.2.1 ⟨3, by decide, by decide⟩,
    ⟨_, rfl⟩⟩

/-! ### The iteration loop -/

theorem HOOK_FOREACH_eq_from (body : loop_body) (fuel : Nat) (idx : Fin UC_HOOK_MAX) (e : emu)
    (cur : List list_item) (h : (e.uc.hook_at idx).head = cur) :
    HOOK_FOREACH body fuel idx e = HOOK_FOREACH_from body fuel cur e := by
  rw [← h]; rfl

theorem foreach_zero (body : loop_body) (cur : List list_item) (e : emu) :
    HOOK_FOREACH_from body 0 cur e = ⟨[], e, .out_of_fuel⟩ := by
  cases cur <;> rfl

theorem foreach_nil (body : loop_body) (fuel : Nat) (e : emu) :
    HOOK_FOREACH_from body (fuel + 1) [] e = ⟨[], e, .done⟩ := rfl

theorem foreach_null (body : loop_body) (fuel : Nat) (cur : list_item)
    (next : List list_item) (e : emu) (h : cur.data = none) :
    HOOK_FOREACH_from body (fuel + 1) (cur :: next) e = ⟨[], e, .done⟩ := by
  simp [HOOK_FOREACH_from, h]

theorem foreach_stopped_succ (body : loop_body) (fuel : Nat) (cur : List list_item) (e : emu)
    (h : e.uc.stop_request = true) :
    HOOK_FOREACH_from body (fuel + 1) cur e = ⟨[], e, .done⟩ := by
  cases cur with
  | nil => rfl
  | cons it next =>
    cases hd : it.data with
    | none => exact foreach_null body fuel it next e hd
    | some hh => simp [HOOK_FOREACH_from, hd, h]

theorem foreach_stopped (body : loop_body) (fuel : Nat) (cur : List list_item) (e : emu)
    (h : e.uc.stop_request = true) :
    (HOOK_FOREACH_from body fuel cur e).entered = [] ∧
    (HOOK_FOREACH_from body fuel cur e).final = e := by
  cases fuel with
  | zero => rw [foreach_zero]; exact ⟨rfl, rfl⟩
  | succ n => rw [foreach_stopped_succ body n cur e h]; exact ⟨rfl, rfl⟩

theorem foreach_step_fault (body : loop_body) (fuel : Nat) (cur : list_item)
    (next : List list_item) (e : emu) (hh : hook) (hd : cur.data = some hh)
    (h : e.uc.stop_request = false) (hb : (body hh next e).2 = none) :
    HOOK_FOREACH_from body (fuel + 1) (cur :: next) e
      = ⟨[(hh, e)], (body hh next e).1, .fault⟩ := by
  simp [HOOK_FOREACH_from, hd, h, hb]

theorem foreach_step (body : loop_body) (fuel : Nat) (cur : list_item)
    (next : List list_item) (e : emu) (hh : hook) (next1 : List list_item)
    (hd : cur.data = some hh) (h : e.uc.stop_request = false)
    (hb : (body hh next e).2 = some next1) :
    HOOK_FOREACH_from body (fuel + 1) (cur :: next) e
      = ⟨(hh, e) :: (HOOK_FOREACH_from body fuel next1 (body hh next e).1).entered,
         (HOOK_FOREACH_from body fuel next1 (body hh next e).1).final,
         (HOOK_FOREACH_from body fuel next1 (body hh next e).1).status⟩ := by
  simp [HOOK_FOREACH_from, hd, h, hb]

theorem foreach_entered_not_stopped (body : loop_body) (fuel : Nat) :
    ∀ (cur : List list_item) (e : emu),
      ∀ p ∈ (HOOK_FOREACH_from body fuel cur e).entered, p.2.uc.stop_request = false := by
  induction fuel with
  | zero => intro cur e p hp; simp [foreach_zero] at hp
  | succ n ih =>
    intro cur e p hp
    cases cur with
    | nil => simp [foreach_nil] at hp
    | cons it next =>
      cases hd : it.data with
      | none => simp [foreach_null body n it next e hd] at hp
      | some hh =>
        cases hs : e.uc.stop_request with
        | true => simp [foreach_stopped_succ body n _ e hs] at hp
        | false =>
          cases hb : (body hh next e).2 with
          | none =>
            rw [foreach_step_fault body n it next e hh hd hs hb] at hp
            simp only [List.mem_singleton] at hp
            rw [hp]; exact hs
          | some next1 =>
            rw [foreach_step body n it next e hh next1 hd hs hb] at hp
            rcases List.mem_cons.1 hp with h1 | h1
            · rw [h1]; exact hs
            · exact ih _ _ p h1

theorem foreach_length_le_fuel (body : loop_body) (fuel : Nat) :
    ∀ (cur : List list_item) (e : emu),
      (HOOK_FOREACH_from body fuel cur e).entered.length ≤ fuel := by
  induction fuel with
  | zero => intro cur e; simp [foreach_zero]
  | succ n ih =>
    intro cur e
    cases cur with
    | nil => simp [foreach_nil]
    | cons it next =>
      cases hd : it.data with
      | none => simp [foreach_null body n it next e hd]
      | some hh =>
        cases hs : e.uc.stop_request with
        | true => simp [foreach_stopped_succ body n _ e hs]
        | false =>
          cases hb : (body hh next e).2 with
          | none => simp [foreach_step_fault body n it next e hh hd hs hb]
          | some next1 =>
            rw [foreach_step body n it next e hh next1 hd hs hb]
            simpa using ih next1 _

theorem foreach_prefix_of_stopped (body : loop_body) (i : Nat) :
    ∀ (fuel : Nat) (cur : List list_item) (e : emu), i + 1 ≤ fuel →
      (HOOK_FOREACH_from body (i + 1) cur e).final.uc.stop_request = true →
      (HOOK_FOREACH_from body fuel cur e).entered
        = (HOOK_FOREACH_from body (i + 1) cur e).entered ∧
      (HOOK_FOREACH_from body fuel cur e).final
        = (HOOK_FOREACH_from body (i + 1) cur e).final ∧
      (i + 2 ≤ fuel → (HOOK_FOREACH_from body fuel cur e).status ≠ .out_of_fuel) := by
  induction i with
  | zero =>
    intro fuel cur e hf h
    obtain ⟨k, rfl⟩ : ∃ k, fuel = k + 1 := ⟨fuel - 1, by omega⟩
    cases cur with
    | nil => simp [foreach_nil]
    | cons it next =>
      cases hd : it.data with
      | none => simp [foreach_null body _ it next e hd]
      | some hh =>
        cases hs : e.uc.stop_request with
        | true => simp [foreach_stopped_succ body _ _ e hs]
        | false =>
          cases hb : (body hh next e).2 with
          | none => simp [foreach_step_fault body _ it next e hh hd hs hb]
          | some next1 =>
            rw [foreach_step body 0 it next e hh next1 hd hs hb, foreach_zero] at h
            rw [foreach_step body k it next e hh next1 hd hs hb,
              foreach_step body 0 it next e hh next1 hd hs hb, foreach_zero]
            have h1 := foreach_stopped body k next1 _ h
            refine ⟨by simp [h1.1], by simp [h1.2], ?_⟩
            intro hk
            obtain ⟨j, rfl⟩ : ∃ j, k = j + 1 := ⟨k - 1, by omega⟩
            simp [foreach_stopped_succ body j next1 _ h]
  | succ i ih =>
    intro fuel cur e hf h
    obtain ⟨k, rfl⟩ : ∃ k, fuel = k + 1 := ⟨fuel - 1, by omega⟩
    cases cur with
    | nil => simp [foreach_nil]
    | cons it next =>
      cases hd : it.data with
      | none => simp [foreach_null body _ it next e hd]
      | some hh =>
        cases hs : e.uc.stop_request with
        | true => simp [foreach_stopped_succ body _ _ e hs]
        | false =>
          cases hb : (body hh next e).2 with
          | none => simp [foreach_step_fault body _ it next e hh hd hs hb]
          | some next1 =>
            rw [foreach_step body (i + 1) it next e hh next1 hd hs hb] at h
            rw [foreach_step body k it next e hh next1 hd hs hb,
              foreach_step body (i + 1) it next e hh next1 hd hs hb]
            have h1 := ih k next1 _ (by omega) h
            refine ⟨by simp [h1.1], by simp [h1.2.1], ?_⟩
            intro hk
            exact h1.2.2 (by omega)

/-- C3: the body of `HOOK_FOREACH` is entered only in a state whose
`stop_request` is false: if the flag is set when the pass begins, no body is
executed and the state is unchanged; every body execution begins with the flag
clear; and if the flag is set when `i + 1` iterations have been made, the pass
consists of those iterations only, whatever the bodies did to the list: at most
`i + 1` bodies are executed, none after the one at position `i`, the pass ends
there, and in a dispatch pass no further callback is invoked. -/
theorem C3_stop_request_ends_pass (body : loop_body) (fuel : Nat) (cur : List list_item)
    (e : emu) :
    (e.uc.stop_request = true →
      (HOOK_FOREACH_from body fuel cur e).entered = [] ∧
      (HOOK_FOREACH_from body fuel cur e).final = e ∧
      (0 < fuel → (HOOK_FOREACH_from body fuel cur e).status = .done)) ∧
    (∀ p ∈ (HOOK_FOREACH_from body fuel cur e).entered, p.2.uc.stop_request = false) ∧
    (∀ i, i + 1 ≤ fuel →
      (HOOK_FOREACH_from body (i + 1) cur e).final.uc.stop_request = true →
      (HOOK_FOREACH_from body fuel cur e).entered
        = (HOOK_FOREACH_from body (i + 1) cur e).entered ∧
      (HOOK_FOREACH_from body fuel cur e).final
        = (HOOK_FOREACH_from body (i + 1) cur e).final ∧
      (HOOK_FOREACH_from body fuel cur e).entered.length ≤ i + 1 ∧
      (i + 2 ≤ fuel → (HOOK_FOREACH_from body fuel cur e).status ≠ .out_of_fuel)) ∧
    (∀ (cb : callback) (addr i : Nat), i + 1 ≤ fuel →
      (dispatch_from cb addr (i + 1) cur e).final.uc.stop_request = true →
      (dispatch_from cb addr fuel cur e).final.calls
        = (dispatch_from cb addr (i + 1) cur e).final.calls) := by
  refine ⟨?_, foreach_entered_not_stopped body fuel cur e, ?_, ?_⟩
  · intro h
    refine ⟨(foreach_stopped body fuel cur e h).1, (foreach_stopped body fuel cur e h).2, ?_⟩
    intro hf
    obtain ⟨k, rfl⟩ : ∃ k, fuel = k + 1 := ⟨fuel - 1, by omega⟩
    rw [foreach_stopped_succ body k cur e h]
  · intro i hf h
    have h1 := foreach_prefix_of_stopped body i fuel cur e hf h
    refine ⟨h1.1, h1.2.1, ?_, h1.2.2⟩
    rw [h1.1]
    exact foreach_length_le_fuel body (i + 1) cur e
  · intro cb addr i hf h
    unfold dispatch_from at h ⊢
    rw [(foreach_prefix_of_stopped _ i fuel cur e hf h).2.1]

theorem C3_stop_request_ends_pass_witness :
    (dispatch_from cb_stop 0x1500 (1 + 1) chain3 emu0).final.uc.stop_request = true ∧
    (dispatch_from cb_stop 0x1500 8 chain3 emu0).final.calls
      = (dispatch_from cb_stop 0x1500 (1 + 1) chain3 emu0).final.calls ∧
    (dispatch_from cb_stop 0x1500 8 chain3 emu0).final.calls = [hook_1000_2000] ∧
    (dispatch_from cb_stop 0x1500 8 chain3 emu0).status = .done ∧
    (dispatch_from cb_nop 0x1500 8 chain3 emu0).final.calls
      = [hook_1000_2000, hook_unbounded] :=
  ⟨by decide,
    (C3_stop_request_ends_pass (dispatch_body cb_stop 0x1500) 8 chain3 emu0).2.2.2
      cb_stop 0x1500 1 (by decide) (by decide),
    by decide, by decide, by decide⟩

/-! ### Passes whose body leaves the list as it is -/

theorem foreach_keep_step (body : loop_body)
    (hkeep : ∀ hh next s, (body hh next s).2 = some next)
    (fuel : Nat) (cur : list_item) (next : List list_item) (e : emu) (hh : hook)
    (hd : cur.data = some hh) (h : e.uc.stop_request = false) :
    HOOK_FOREACH_from body (fuel + 1) (cur :: next) e
      = ⟨(hh, e) :: (HOOK_FOREACH_from body fuel next (body hh next e).1).entered,
         (HOOK_FOREACH_from body fuel next (body hh next e).1).final,
         (HOOK_FOREACH_from body fuel next (body hh next e).1).status⟩ :=
  foreach_step body fuel cur next e hh next hd h (hkeep hh next e)

theorem foreach_keep_done (body : loop_body)
    (hkeep : ∀ hh next s, (body hh next s).2 = some next) (cur : List list_item) :
    ∀ (fuel : Nat) (e : emu), cur.length < fuel →
      (HOOK_FOREACH_from body fuel cur e).status = .done := by
  induction cur with
  | nil =>
    intro fuel e hf
    obtain ⟨k, rfl⟩ : ∃ k, fuel = k + 1 := ⟨fuel - 1, by omega⟩
    rfl
  | cons it next ih =>
    intro fuel e hf
    obtain ⟨k, rfl⟩ : ∃ k, fuel = k + 1 := ⟨fuel - 1, by omega⟩
    cases hd : it.data with
    | none => rw [foreach_null body k it next e hd]
    | some hh =>
      cases hs : e.uc.stop_request with
      | true => rw [foreach_stopped_succ body k _ e hs]
      | false =>
        rw [foreach_keep_step body hkeep k it next e hh hd hs]
        exact ih k _ (by simpa using hf)

theorem foreach_keep_all_of_not_stopped (body : loop_body)
    (hkeep : ∀ hh next s, (body hh next s).2 = some next) (cur : List list_item) :
    ∀ (fuel : Nat) (e : emu), (∀ it ∈ cur, it.data ≠ none) → cur.length < fuel →
      (HOOK_FOREACH_from body fuel cur e).final.uc.stop_request = false →
      (HOOK_FOREACH_from body fuel cur e).entered.map Prod.fst = records cur := by
  induction cur with
  | nil =>
    intro fuel e _ hf _
    obtain ⟨k, rfl⟩ : ∃ k, fuel = k + 1 := ⟨fuel - 1, by omega⟩
    rfl
  | cons it next ih =>
    intro fuel e hdata hf hfin
    obtain ⟨k, rfl⟩ : ∃ k, fuel = k + 1 := ⟨fuel - 1, by omega⟩
    obtain ⟨d⟩ := it
    cases d with
    | none => exact absurd rfl (hdata ⟨none⟩ (List.mem_cons_self _ _))
    | some hh =>
      cases hs : e.uc.stop_request with
      | true =>
        rw [foreach_stopped_succ body k _ e hs] at hfin
        simp only at hfin
        rw [hs] at hfin
        cases hfin
      | false =>
        rw [foreach_keep_step body hkeep k ⟨some hh⟩ next e hh rfl hs] at hfin ⊢
        rw [records_cons_some, List.map_cons,
          ih k _ (fun x hx => hdata x (List.mem_cons_of_mem _ hx)) (by simpa using hf) hfin]

theorem foreach_keep_final_not_stopped (body : loop_body)
    (hkeep : ∀ hh next s, (body hh next s).2 = some next)
    (hbody : ∀ hh next s, s.uc.stop_request = false → (body hh next s).1.uc.stop_request = false)
    (cur : List list_item) :
    ∀ (fuel : Nat) (e : emu), e.uc.stop_request = false →
      (HOOK_FOREACH_from body fuel cur e).final.uc.stop_request = false := by
  induction cur with
  | nil => intro fuel e h; cases fuel <;> exact h
  | cons it next ih =>
    intro fuel e h
    cases fuel with
    | zero => exact h
    | succ n =>
      cases hd : it.data with
      | none => rw [foreach_null body n it next e hd]; exact h
      | some hh =>
        rw [foreach_keep_step body hkeep n it next e hh hd h]
        exact ih n _ (hbody hh next e h)

theorem dispatch_body_keeps_list (cb : callback) (addr : Nat)
    (hcb : ∀ hh next uc, (cb hh next uc).2 = some next) :
    ∀ hh next s, (dispatch_body cb addr hh next s).2 = some next := by
  intro hh next s
  unfold dispatch_body invoke
  split
  · exact hcb hh next s.uc
  · rfl

theorem dispatch_body_keeps_running (cb : callback) (addr : Nat)
    (hcb : ∀ hh next uc, uc.stop_request = false → (cb hh next uc).1.stop_request = false) :
    ∀ hh next s, s.uc.stop_request = false →
      (dispatch_body cb addr hh next s).1.uc.stop_request = false := by
  intro hh next s h
  unfold dispatch_body invoke
  split
  · exact hcb hh next s.uc h
  · exact h

theorem dispatch_calls_extend (cb : callback) (addr : Nat) (fuel : Nat) :
    ∀ (cur : List list_item) (e : emu),
      ∃ rest, (dispatch_from cb addr fuel cur e).final.calls = e.calls ++ rest := by
  unfold dispatch_from
  induction fuel with
  | zero => intro cur e; exact ⟨[], by simp [foreach_zero]⟩
  | succ n ih =>
    intro cur e
    cases cur with
    | nil => exact ⟨[], by simp [foreach_nil]⟩
    | cons it next =>
      cases hd : it.data with
      | none => exact ⟨[], by simp [foreach_null _ n it next e hd]⟩
      | some hh =>
        cases hs : e.uc.stop_request with
        | true => exact ⟨[], by simp [foreach_stopped_succ _ n _ e hs]⟩
        | false =>
          have hcalls : ∃ pre, (dispatch_body cb addr hh next e).1.calls = e.calls ++ pre := by
            unfold dispatch_body invoke
            split
            · exact ⟨[hh], rfl⟩
            · exact ⟨[], by simp⟩
          obtain ⟨pre, hpre⟩ := hcalls
          cases hb : (dispatch_body cb addr hh next e).2 with
          | none =>
            rw [foreach_step_fault _ n it next e hh hd hs hb]
            exact ⟨pre, hpre⟩
          | some next1 =>
            rw [foreach_step _ n it next e hh next1 hd hs hb]
            obtain ⟨rest, hr⟩ := ih next1 (dispatch_body cb addr hh next e).1
            refine ⟨pre ++ rest, ?_⟩
            simp only [hr, hpre, List.append_assoc]

theorem dispatch_keep_calls_matching (cb : callback) (addr : Nat)
    (hstop : ∀ hh next uc, uc.stop_request = false → (cb hh next uc).1.stop_request = false)
    (hkeep : ∀ hh next uc, (cb hh next uc).2 = some next)
    (l : List hook) :
    ∀ (fuel : Nat) (e : emu), e.uc.stop_request = false →
      (dispatch_from cb addr fuel (chain_of l) e).final.calls
        = e.calls ++ (l.take fuel).filter
            (fun hh => decide (hh.hbegin > hh.hend ∨ (hh.hbegin ≤ addr ∧ addr ≤ hh.hend))) := by
  unfold dispatch_from
  induction l with
  | nil => intro fuel e _; cases fuel <;> simp [chain_of, foreach_zero, foreach_nil]
  | cons hh t ih =>
    intro fuel e hs
    cases fuel with
    | zero => simp [foreach_zero]
    | succ n =>
      have hc : chain_of (hh :: t) = ⟨some hh⟩ :: chain_of t := rfl
      rw [hc, foreach_keep_step _ (dispatch_body_keeps_list cb addr hkeep) n _ _ e hh rfl hs,
        List.take_succ_cons]
      by_cases hm : HOOK_BOUND_CHECK hh addr = true
      · have hr : hh.hbegin > hh.hend ∨ (hh.hbegin ≤ addr ∧ addr ≤ hh.hend) :=
          (HOOK_BOUND_CHECK_iff hh addr).1 hm
        have hb : (dispatch_body cb addr hh (chain_of t) e).1
            = { uc := (cb hh (chain_of t) e.uc).1, calls := e.calls ++ [hh] } := by
          simp [dispatch_body, hm, invoke]
        rw [hb, ih n _ (hstop hh _ e.uc hs)]
        simp [List.filter_cons, hr]
      · have hr : ¬ (hh.hbegin > hh.hend ∨ (hh.hbegin ≤ addr ∧ addr ≤ hh.hend)) :=
          fun h => hm ((HOOK_BOUND_CHECK_iff hh addr).2 h)
        have hb : (dispatch_body cb addr hh (chain_of t) e).1 = e := by
          simp [dispatch_body, hm]
        rw [hb, ih n e hs]
        simp [List.filter_cons, hr]

/-- C4 as stated fails, because the loop reads `cur->next` on the list as the
callback left it.  The code hooks are `chain3`, `stop_request` is false and the
callback `cb_unlink_last` never sets it; at address 0x3005 the records that
match are `hook_3000` and `hook_unbounded`, but the callback run for `hook_3000`
unlinks the last item, so the pass ends having invoked `hook_3000` only. -/
theorem C4_counterexample :
    emu_code.uc.stop_request = false ∧
    (∀ hh next uc, (cb_unlink_last hh next uc).1.stop_request = uc.stop_request) ∧
    (emu_code.uc.hook_at code_idx).head = chain_of [hook_3000, hook_1000_2000, hook_unbounded] ∧
    [hook_3000, hook_1000_2000, hook_unbounded].filter
        (fun hh => decide (hh.hbegin > hh.hend ∨ (hh.hbegin ≤ 0x3005 ∧ 0x3005 ≤ hh.hend)))
      = [hook_3000, hook_unbounded] ∧
    (HOOK_FOREACH (dispatch_body cb_unlink_last 0x3005) 8 code_idx emu_code).status = .done ∧
    (HOOK_FOREACH (dispatch_body cb_unlink_last 0x3005) 8 code_idx emu_code).final.calls
      = [hook_3000] ∧
    ¬ ((HOOK_FOREACH (dispatch_body cb_unlink_last 0x3005) 8 code_idx emu_code).final.calls
        = emu_code.calls ++ [hook_3000, hook_1000_2000, hook_unbounded].filter
            (fun hh => decide (hh.hbegin > hh.hend ∨ (hh.hbegin ≤ 0x3005 ∧ 0x3005 ≤ hh.hend)))) :=
  ⟨rfl, fun _ _ _ => rfl, by decide, by decide, by decide, by decide, by decide⟩

/-- C4, amended: for every hook collection (the chain whose items point to the
records `l`) and every address, if `stop_request` is false on entry, no
callback sets it and no callback changes the list during the pass, a dispatch
pass ends having invoked exactly the records whose range matches `addr`
(`begin > end`, or `begin <= addr <= end`), each once, in head-to-tail order;
the body is entered for every record, so records that do not match are skipped
without ending the pass. -/
theorem C4_dispatch_invokes_matching (cb : callback) (addr : Nat)
    (l : List hook) (fuel : Nat) (e : emu)
    (hfuel : l.length < fuel)
    (hstop : e.uc.stop_request = false)
    (hcb : ∀ hh next uc, uc.stop_request = false → (cb hh next uc).1.stop_request = false)
    (hkeep : ∀ hh next uc, (cb hh next uc).2 = some next) :
    (dispatch_from cb addr fuel (chain_of l) e).status = .done ∧
    (dispatch_from cb addr fuel (chain_of l) e).final.calls
      = e.calls ++ l.filter
          (fun hh => decide (hh.hbegin > hh.hend ∨ (hh.hbegin ≤ addr ∧ addr ≤ hh.hend))) ∧
    (dispatch_from cb addr fuel (chain_of l) e).entered.map Prod.fst = l := by
  have hlen : (chain_of l).length = l.length := by simp [chain_of]
  have hk := dispatch_body_keeps_list cb addr hkeep
  refine ⟨?_, ?_, ?_⟩
  · exact foreach_keep_done _ hk (chain_of l) fuel e (by rw [hlen]; exact hfuel)
  · rw [dispatch_keep_calls_matching cb addr hcb hkeep l fuel e hstop,
      List.take_of_length_le (Nat.le_of_lt hfuel)]
  · have h1 := foreach_keep_all_of_not_stopped _ hk (chain_of l) fuel e (chain_of_data l)
      (by rw [hlen]; exact hfuel)
      (foreach_keep_final_not_stopped _ hk (dispatch_body_keeps_running cb addr hcb)
        (chain_of l) fuel e hstop)
    rw [records_chain_of] at h1
    exact h1

theorem C4_dispatch_invokes_matching_witness :
    [hook_3000, hook_1000_2000, hook_unbounded].length < 8 ∧ emu0.uc.stop_request = false ∧
    (dispatch_from cb_nop 0x3005 8 chain3 emu0).status = .done ∧
    (dispatch_from cb_nop 0x3005 8 chain3 emu0).final.calls = [hook_3000, hook_unbounded] ∧
    (dispatch_from cb_nop 0x3005 8 chain3 emu0).entered.map Prod.fst
      = [hook_3000, hook_1000_2000, hook_unbounded] :=
  ⟨by decide, rfl,
    (C4_dispatch_invokes_matching cb_nop 0x3005 [hook_3000, hook_1000_2000, hook_unbounded]
      8 emu0 (by decide) rfl (fun _ _ _ h => h) (fun _ _ _ => rfl)).1,
    (C4_dispatch_invokes_matching cb_nop 0x3005 [hook_3000, hook_1000_2000, hook_unbounded]
      8 emu0 (by decide) rfl (fun _ _ _ h => h) (fun _ _ _ => rfl)).2.1.trans (by decide),
    (C4_dispatch_invokes_matching cb_nop 0x3005 [hook_3000, hook_1000_2000, hook_unbounded]
      8 emu0 (by decide) rfl (fun _ _ _ h => h) (fun _ _ _ => rfl)).2.2⟩

/-- C9: for a chain all of whose items have non-NULL data, if
`_hook_exists_bounded(head, addr)` is false then a dispatch pass at `addr`
invokes no callback, leaves the state as it was and ends, and if it is true and
`stop_request` is false on entry then the pass invokes at least one callback,
the first being the first record from the head whose range matches, whatever
the callbacks do to the list. -/
theorem C9_exists_bounded_agrees_with_dispatch (cb : callback)
    (addr : Nat) (cur : List list_item) (fuel : Nat) (e : emu)
    (hdata : ∀ it ∈ cur, it.data ≠ none) :
    (_hook_exists_bounded cur addr = some false →
      (dispatch_from cb addr fuel cur e).final = e ∧
      (cur.length < fuel → (dispatch_from cb addr fuel cur e).status = .done)) ∧
    (_hook_exists_bounded cur addr = some true → e.uc.stop_request = false →
      cur.length ≤ fuel →
      ∃ hh rest, (dispatch_from cb addr fuel cur e).final.calls = e.calls ++ hh :: rest ∧
        (records cur).find? (fun h => HOOK_BOUND_CHECK h addr) = some hh) := by
  induction cur generalizing fuel with
  | nil =>
    refine ⟨fun _ => ⟨?_, fun hf => ?_⟩, fun h => ?_⟩
    · cases fuel <;> rfl
    · obtain ⟨k, rfl⟩ : ∃ k, fuel = k + 1 := ⟨fuel - 1, by simp at hf; omega⟩
      rfl
    · simp [_hook_exists_bounded] at h
  | cons it next ih =>
    obtain ⟨d⟩ := it
    cases d with
    | none => exact absurd rfl (hdata ⟨none⟩ (List.mem_cons_self _ _))
    | some hh =>
      have hnext : ∀ x ∈ next, x.data ≠ none := fun x hx => hdata x (List.mem_cons_of_mem _ hx)
      by_cases hc : HOOK_BOUND_CHECK hh addr = true
      · refine ⟨fun h => ?_, fun _ hs hf => ?_⟩
        · simp [_hook_exists_bounded, hc] at h
        · obtain ⟨k, rfl⟩ : ∃ k, fuel = k + 1 :=
            ⟨fuel - 1, by simp only [List.length_cons] at hf; omega⟩
          have hfind : (records (⟨some hh⟩ :: next)).find? (fun h => HOOK_BOUND_CHECK h addr)
              = some hh := by
            rw [records_cons_some]
            simp [List.find?_cons, hc]
          have hb1 : (dispatch_body cb addr hh next e).1.calls = e.calls ++ [hh] := by
            simp [dispatch_body, hc, invoke]
          unfold dispatch_from
          cases hb : (dispatch_body cb addr hh next e).2 with
          | none =>
            rw [foreach_step_fault _ k ⟨some hh⟩ next e hh rfl hs hb]
            exact ⟨hh, [], hb1, hfind⟩
          | some next1 =>
            rw [foreach_step _ k ⟨some hh⟩ next e hh next1 rfl hs hb]
            obtain ⟨rest, hr⟩ :=
              dispatch_calls_extend cb addr k next1 (dispatch_body cb addr hh next e).1
            unfold dispatch_from at hr
            refine ⟨hh, rest, ?_, hfind⟩
            simp only [hr, hb1, List.append_assoc, List.singleton_append]
      · have hrec : _hook_exists_bounded (⟨some hh⟩ :: next) addr
            = _hook_exists_bounded next addr := by
          simp [_hook_exists_bounded, hc]
        have hb : dispatch_body cb addr hh next e = (e, some next) := by
          simp [dispatch_body, hc]
        rw [hrec, records_cons_some]
        cases fuel with
        | zero =>
          refine ⟨fun _ => ⟨rfl, fun hf => by simp at hf⟩, fun _ _ hf => by simp at hf⟩
        | succ k =>
          have ih1 := ih k hnext
          have hfinal : (dispatch_from cb addr (k + 1) (⟨some hh⟩ :: next) e).final
              = (dispatch_from cb addr k next e).final := by
            unfold dispatch_from
            cases hs : e.uc.stop_request with
            | true =>
              rw [foreach_stopped_succ _ k _ e hs, (foreach_stopped _ k next e hs).2]
            | false =>
              rw [foreach_step _ k ⟨some hh⟩ next e hh next rfl hs (by rw [hb]), hb]
          have hstatus : (dispatch_from cb addr k next e).status = .done →
              (dispatch_from cb addr (k + 1) (⟨some hh⟩ :: next) e).status = .done := by
            unfold dispatch_from
            intro h
            cases hs : e.uc.stop_request with
            | true => rw [foreach_stopped_succ _ k _ e hs]
            | false =>
              rw [foreach_step _ k ⟨some hh⟩ next e hh next rfl hs (by rw [hb]), hb]
              exact h
          rw [hfinal]
          refine ⟨fun h => ⟨(ih1.1 h).1, fun hf => ?_⟩, fun h hs hf => ?_⟩
          · exact hstatus ((ih1.1 h).2 (by simp only [List.length_cons] at hf; omega))
          · obtain ⟨h1, rest, hr, hfd⟩ :=
              ih1.2 h hs (by simp only [List.length_cons] at hf; omega)
            exact ⟨h1, rest, hr, by simp [List.find?_cons, hc, hfd]⟩

theorem C9_exists_bounded_agrees_with_dispatch_witness :
    (∀ it ∈ chain3, it.data ≠ none) ∧
    (_hook_exists_bounded chain3 0x1500 = some true ∧ emu0.uc.stop_request = false) ∧
    (∃ hh rest, (dispatch_from cb_stop 0x1500 8 chain3 emu0).final.calls
        = emu0.calls ++ hh :: rest ∧
        (records chain3).find? (fun h => HOOK_BOUND_CHECK h 0x1500) = some hh) ∧
    (records chain3).find? (fun h => HOOK_BOUND_CHECK h 0x1500) = some hook_1000_2000 :=
  ⟨by decide, ⟨by decide, rfl⟩,
    (C9_exists_bounded_agrees_with_dispatch cb_stop 0x1500 chain3 8 emu0 (by decide)).2
      (by decide) rfl (by decide),
    by decide⟩

end Unicorn
